import Mathlib

/-!
Verification of the conversation-tool session relay against its
natural-language specification.

The definitions below are a shallow embedding of the Python sources in
`src/server/`: the token store and WebSocket endpoint logic of `main.py`,
the quota tracker of `usage_tracker.py`, the in-memory storage of
`redis_storage.py`, and the two provider adapters `gemini_live.py` and
`qwen_live.py`.  Python float timestamps and second counts are modelled as
integers (every claim here depends only on comparisons, additions and
subtractions of time values, which this model renders exactly); Python
dicts are modelled as association lists keyed by strings.  Environment
configurable constants (`SESSION_TIME_LIMIT`, `DAILY_USER_LIMIT`,
`MAX_MESSAGE_SIZE`) are passed as explicit parameters.
-/

namespace ConvTool

/-! ### Association-list primitives

Python `dict` operations, shared by the token map and the storage map.
`afind` is `d[k]` / `k in d`, `aerase` is the state change of `d.pop(k)`,
`ainsert` is `d[k] = v`.  `AWF` states that keys are unique, which every
Python dict satisfies by construction. -/

def afind {β : Type} : List (String × β) → String → Option β
  | [], _ => none
  | (k, v) :: rest, t => if k = t then some v else afind rest t

def aerase {β : Type} (m : List (String × β)) (t : String) : List (String × β) :=
  m.filter (fun p => p.1 ≠ t)

def ainsert {β : Type} (m : List (String × β)) (t : String) (v : β) : List (String × β) :=
  (t, v) :: aerase m t

def akeys {β : Type} (m : List (String × β)) : List String :=
  m.map Prod.fst

def AWF {β : Type} (m : List (String × β)) : Prop :=
  (akeys m).Nodup

instance {β : Type} (m : List (String × β)) : Decidable (AWF m) :=
  decidable_of_iff ((akeys m).Nodup) Iff.rfl

/-! ## Token store (`src/server/main.py`, lines 174-200)

`valid_tokens: Dict[str, Dict]` maps a token to
`{"timestamp": ..., "user_id": ...}`.  All three operations hold
`_token_lock`, so each runs atomically; we model them as pure state
transformers taking the current `time.time()` value where the Python code
reads the clock. -/

structure TokenData where
  timestamp : ℤ
  user_id : String
deriving DecidableEq, Repr

/-- The `valid_tokens` dict. -/
abbrev TokenMap := List (String × TokenData)

def TOKEN_EXPIRY_SECONDS : ℤ := 30

/-- `cleanup_tokens()`: removes every entry whose age exceeds
`TOKEN_EXPIRY_SECONDS` at time `current_time`.  `main.py` invokes this
inside `/api/auth` just before `add_token`; nothing else calls it. -/
def cleanup_tokens (current_time : ℤ) (m : TokenMap) : TokenMap :=
  m.filter (fun p => !(current_time - p.2.timestamp > TOKEN_EXPIRY_SECONDS : Bool))

/-- `add_token(token, user_id)`:
`valid_tokens[token] = {"timestamp": time.time(), "user_id": user_id}`. -/
def add_token (now : ℤ) (token : String) (user_id : String) (m : TokenMap) : TokenMap :=
  ainsert m token ⟨now, user_id⟩

/-- `consume_token(token)`: pops and returns the entry if the key is
present, returns `None` otherwise.  The timestamp is not examined here. -/
def consume_token (token : String) (m : TokenMap) : Option TokenData × TokenMap :=
  match afind m token with
  | some d => (some d, aerase m token)
  | none => (none, m)

/-! ## In-memory storage (`src/server/redis_storage.py`, class `MemoryStorage`)

`self._data: Dict[str, tuple[Any, float]]` maps a key to
`(value, expires_at)`.  Every method holds `self._lock`, so each is modelled
as a pure state transformer over an association list of
`(value, expires_at)` pairs; `now` stands for `time.time()`. -/

/-- A store entry value together with its `expires_at` field
(`None` when stored without TTL). -/
abbrev Store (α : Type) := List (String × α × Option ℤ)

/-- Python truthiness test `expires_at and expires_at < now` used by
`_cleanup`, `get` and `get_and_delete`: an entry is expired when
`expires_at` is set, non-zero (Python treats `0` as falsy) and in the
past. -/
def expiredAt (exp : Option ℤ) (now : ℤ) : Bool :=
  match exp with
  | none => false
  | some e => decide (e ≠ 0) && decide (e < now)

/-- Python `time.time() + ttl if ttl else None`: a `ttl` of `None` or `0`
yields no expiry. -/
def ttlExpiry (now : ℤ) (ttl : Option ℤ) : Option ℤ :=
  match ttl with
  | none => none
  | some t => if t = 0 then none else some (now + t)

namespace Store

/-- `_cleanup()`: drops every expired entry. -/
def cleanup {α : Type} (now : ℤ) (s : Store α) : Store α :=
  s.filter (fun p => !(expiredAt p.2.2 now))

/-- `findEntry` is plain dict lookup on `self._data` (no expiry logic). -/
def findEntry {α : Type} (s : Store α) (k : String) : Option (α × Option ℤ) :=
  afind s k

/-- `set(key, value, ttl)`: runs `_cleanup`, then stores the value with
`expires_at = now + ttl` (or no expiry). -/
def set {α : Type} (now : ℤ) (k : String) (v : α) (ttl : Option ℤ) (s : Store α) : Store α :=
  ainsert (cleanup now s) k (v, ttlExpiry now ttl)

/-- `get(key)`: runs `_cleanup`, then returns the value unless the entry is
absent or expired (an expired entry is deleted on the way). -/
def get {α : Type} (now : ℤ) (k : String) (s : Store α) : Option α × Store α :=
  let s1 := cleanup now s
  match findEntry s1 k with
  | none => (none, s1)
  | some (v, exp) =>
      if expiredAt exp now then (none, aerase s1 k) else (some v, s1)

/-- `delete(key)`: removes the key, reporting whether it existed. -/
def delete {α : Type} (k : String) (s : Store α) : Bool × Store α :=
  match findEntry s k with
  | some _ => (true, aerase s k)
  | none => (false, s)

/-- `get_and_delete(key)`: pops the entry if present (whether or not it is
expired), and returns its value only when it was unexpired.  No `_cleanup`
runs here. -/
def get_and_delete {α : Type} (now : ℤ) (k : String) (s : Store α) : Option α × Store α :=
  match findEntry s k with
  | none => (none, s)
  | some (v, exp) =>
      let s1 := aerase s k
      if expiredAt exp now then (none, s1) else (some v, s1)

end Store

/-! ### Stored values used by the usage tracker

The usage tracker stores two shapes of value in one storage instance:
JSON session records written by `set_json` (a `json.dumps` string) and
numeric accumulators written by `incrby`.  `float()` on a JSON record
string would raise an uncaught `ValueError`, which we surface as `none`. -/

structure SessionData where
  user_id : String
  start_time : ℤ
deriving DecidableEq, Repr

inductive StoreVal
  | jsonVal (d : SessionData)
  | num (x : ℤ)
deriving DecidableEq, Repr

/-- Python `float(value)`: succeeds on numbers, raises on a JSON record
string (modelled as `none`, an uncaught exception). -/
def StoreVal.toFloat : StoreVal → Option ℤ
  | .num x => some x
  | .jsonVal _ => none

namespace Store

/-- `incrby(key, amount, ttl)`: reads the current value (0 when absent or
expired), adds `amount`, stores the sum with a fresh expiry, and returns
it.  `none` models the uncaught `ValueError` of `float()` on a
non-numeric value.  No `_cleanup` runs here. -/
def incrby (now : ℤ) (k : String) (amount : ℤ) (ttl : Option ℤ) (s : Store StoreVal) :
    Option (ℤ × Store StoreVal) :=
  let current? : Option ℤ :=
    match findEntry s k with
    | none => some 0
    | some (v, exp) => if !(expiredAt exp now) then v.toFloat else some 0
  match current? with
  | none => none
  | some current =>
      let new_value := current + amount
      some (new_value, ainsert s k (.num new_value, ttlExpiry now ttl))

/-- `get_float(key)`: `get`, then `float()`; absent keys read as 0.
`none` models the uncaught `ValueError` on a non-numeric value. -/
def get_float (now : ℤ) (k : String) (s : Store StoreVal) : Option (ℤ × Store StoreVal) :=
  match get now k s with
  | (none, s1) => some (0, s1)
  | (some v, s1) =>
      match v.toFloat with
      | some x => some (x, s1)
      | none => none

/-- `set_json(key, value, ttl)`: stores the `json.dumps` of the value. -/
def set_json (now : ℤ) (k : String) (d : SessionData) (ttl : Option ℤ) (s : Store StoreVal) :
    Store StoreVal :=
  set now k (.jsonVal d) ttl s

/-- `get_json(key)`: `get`, then `json.loads`; both the absent case and the
`TypeError` on a numeric value are caught and yield `None`. -/
def get_json (now : ℤ) (k : String) (s : Store StoreVal) :
    Option SessionData × Store StoreVal :=
  match get now k s with
  | (none, s1) => (none, s1)
  | (some (.jsonVal d), s1) => (some d, s1)
  | (some (.num _), s1) => (none, s1)

/-- The value a live numeric entry holds at time `now` (0 when the key is
absent, expired, or non-numeric).  Pure read used to state theorems; the
Python code reads this through `get_float`. -/
def readNum (now : ℤ) (k : String) (s : Store StoreVal) : ℤ :=
  match findEntry s k with
  | some (.num x, exp) => if !(expiredAt exp now) then x else 0
  | _ => 0

/-- The binding of key `k`, when there is one, holds a numeric value. -/
def numericAt (s : Store StoreVal) (k : String) : Prop :=
  match findEntry s k with
  | some (.jsonVal _, _) => False
  | _ => True

instance (s : Store StoreVal) (k : String) : Decidable (numericAt s k) := by
  unfold numericAt
  cases findEntry s k with
  | none => exact inferInstanceAs (Decidable True)
  | some p =>
      obtain ⟨v, e⟩ := p
      cases v with
      | jsonVal d => exact inferInstanceAs (Decidable False)
      | num x => exact inferInstanceAs (Decidable True)

end Store

/-! ## Usage tracker (`src/server/usage_tracker.py`)

`DAILY_USER_LIMIT` (default 3600) is read from the environment at import
time; it is a parameter `dailyLimit` here.  `today` stands for
`_get_today()`, the UTC date string. -/

def USAGE_TTL : ℤ := 25 * 60 * 60
def SESSION_TTL : ℤ := 2 * 60 * 60

def usage_key (user_id : String) (date : String) : String :=
  "usage:" ++ user_id ++ ":" ++ date

def session_key (session_id : String) : String :=
  "session:" ++ session_id

/-- `get_user_usage_today(user_id)`: `storage.get_float` on the usage key. -/
def get_user_usage_today (now : ℤ) (today : String) (user_id : String)
    (st : Store StoreVal) : Option (ℤ × Store StoreVal) :=
  Store.get_float now (usage_key user_id today) st

/-- `get_user_remaining_today(user_id)`: `max(0, DAILY_USER_LIMIT - used)`. -/
def get_user_remaining_today (dailyLimit : ℤ) (now : ℤ) (today : String)
    (user_id : String) (st : Store StoreVal) : Option (ℤ × Store StoreVal) :=
  match get_user_usage_today now today user_id st with
  | none => none
  | some (used, st1) => some (max 0 (dailyLimit - used), st1)

/-- `can_user_start_session(user_id)`: anonymous users always may start;
otherwise the user is refused when no budget remains and also when fewer
than 60 seconds remain. -/
def can_user_start_session (dailyLimit : ℤ) (now : ℤ) (today : String)
    (user_id : String) (st : Store StoreVal) :
    Option ((Bool × String) × Store StoreVal) :=
  if user_id = "" then some ((true, "No user tracking (anonymous)"), st)
  else
    match get_user_remaining_today dailyLimit now today user_id st with
    | none => none
    | some (remaining, st1) =>
        if remaining ≤ 0 then
          some ((false, "Daily limit of " ++ toString (dailyLimit / 60)
              ++ " minutes reached. Try again tomorrow."), st1)
        else if remaining < 60 then
          some ((false, "Only " ++ toString remaining
              ++ " seconds remaining today. Try again tomorrow."), st1)
        else
          some ((true, toString (remaining / 60) ++ " minutes remaining today"), st1)

/-- `start_session(session_id, user_id)`: stores the start marker with
`SESSION_TTL`. -/
def start_session (now : ℤ) (session_id : String) (user_id : String)
    (st : Store StoreVal) : Store StoreVal :=
  Store.set_json now (session_key session_id) ⟨user_id, now⟩ (some SESSION_TTL) st

/-- `end_session(session_id)`: looks up and removes the start marker; when
absent returns `None`, otherwise computes the elapsed duration, adds it to
the per-day accumulator via `incrby` with `USAGE_TTL`, and returns the
duration.  The outer `none` models the uncaught exception path of
`incrby` on a non-numeric accumulator. -/
def end_session (now : ℤ) (today : String) (session_id : String)
    (st : Store StoreVal) : Option (Option ℤ × Store StoreVal) :=
  match Store.get_json now (session_key session_id) st with
  | (none, st1) => some (none, st1)
  | (some sd, st1) =>
      let st2 := (Store.delete (session_key session_id) st1).2
      let duration := now - sd.start_time
      match Store.incrby now (usage_key sd.user_id today) duration (some USAGE_TTL) st2 with
      | none => none
      | some (_, st3) => some (some duration, st3)

/-! ## Provider events and actions

One vocabulary shared by both adapters.  An `Event` is a JSON dict put on
the adapter event queue; an `Action` is one externally observable step of
a receive loop, in program order. -/

structure FunctionCall where
  name : String
  args : String
  id : String
deriving DecidableEq, Repr

structure FunctionResponse where
  name : String
  id : String
  result : String
deriving DecidableEq, Repr

inductive Event
  | inputTranscription (text : String) (finished : Bool)
  | outputTranscription (text : String) (finished : Bool)
  | turnComplete
  | interrupted
  | interruptedType
  | toolCallExecuted (name : String) (args : String) (result : String)
  | toolCallPending (calls : List FunctionCall)
  | resumptionUpdate (sessionId : Option String) (token : Option String) (resumable : Bool)
  | goAway (timeLeft : Option String)
  | messageLimitWarning (count : ℕ) (limit : ℕ)
  | errorEvent (msg : String)
deriving DecidableEq, Repr

inductive Action
  | enqueue (e : Event)
  | audioOut (data : String)
  | invokeInterrupt
  | invokeTool (name : String) (args : String)
  | sendToolResponse (responses : List FunctionResponse)
deriving DecidableEq, Repr

/-- Events actually placed on the adapter event queue, in order. -/
def enqueuedEvents (acts : List Action) : List Event :=
  acts.filterMap (fun a =>
    match a with
    | .enqueue e => some e
    | _ => none)

/-- The consumer loop of `start_session` in both adapters: dequeues until
the `None` sentinel and yields each event to the relay. -/
def consumer_loop : List (Option Event) → List Event
  | [] => []
  | none :: _ => []
  | some e :: rest => e :: consumer_loop rest

/-- The spec property at issue in the interrupt-ordering claim: every
enqueued `Interrupted` event has the interrupt callback invoked strictly
earlier in the trace. -/
def callback_precedes_interrupted (tr : List Action) : Prop :=
  ∀ i, tr.get? i = some (.enqueue .interrupted) →
    ∃ j, j < i ∧ tr.get? j = some .invokeInterrupt

/-! ## SDK-mediated adapter (`src/server/gemini_live.py`)

The receive loop (lines 207-359).  A backend message is modelled by the
fields the loop inspects; tool handlers are modelled as functions from the
(opaque) argument dict to `Except`, where `Except.error` is a raised
exception, caught per call and turned into an `"Error: ..."` result
string. -/

namespace Gemini

structure ServerContent where
  modelTurnAudio : List String
  inputTranscription : Option String
  outputTranscription : Option String
  turnComplete : Bool
  interrupted : Bool
deriving DecidableEq, Repr

structure LiveServerMessage where
  serverContent : Option ServerContent
  toolCall : Option (List FunctionCall)
  sessionResumptionUpdate : Option (Option String × Option String × Bool)
  goAway : Option (Option String)
deriving DecidableEq, Repr

/-- `self.tool_mapping`: name to handler. -/
abbrev ToolMapping := List (String × (String → Except String String))

/-- `register_tool(func)`: `self.tool_mapping[func.__name__] = func`. -/
def register_tool (name : String) (handler : String → Except String String)
    (m : ToolMapping) : ToolMapping :=
  ainsert m name handler

/-- Result string sent back to the backend: the handler result, or
`f"Error: {e}"` when the handler raised. -/
def toolResult (handler : String → Except String String) (args : String) : String :=
  match handler args with
  | .ok r => r
  | .error e => "Error: " ++ e

/-- The `for fc in tool_call.function_calls` loop (lines 314-341): returns
`function_responses`, `client_tool_calls` and the actions performed inside
the loop, all in program order. -/
def toolLoop (mapping : ToolMapping) :
    List FunctionCall → List FunctionResponse × List FunctionCall × List Action
  | [] => ([], [], [])
  | fc :: rest =>
      let prev := toolLoop mapping rest
      match afind mapping fc.name with
      | some handler =>
          let result := toolResult handler fc.args
          (⟨fc.name, fc.id, result⟩ :: prev.1, prev.2.1,
            .invokeTool fc.name fc.args
              :: .enqueue (.toolCallExecuted fc.name fc.args result) :: prev.2.2)
      | none => (prev.1, fc :: prev.2.1, prev.2.2)

/-- The result string a call produces under the registered handler, when
one is registered (modelling helper used to state the loop
characterisation). -/
def toolResultFor (mapping : ToolMapping) (fc : FunctionCall) : String :=
  match afind mapping fc.name with
  | some handler => toolResult handler fc.args
  | none => ""

/-- Full `if tool_call:` block (lines 310-352): the loop, then the
forward-to-client event for unregistered calls, then the tool response
for registered ones. -/
def processToolCall (mapping : ToolMapping) (fcs : List FunctionCall) : List Action :=
  let r := toolLoop mapping fcs
  r.2.2
    ++ (if r.2.1 ≠ [] then [.enqueue (.toolCallPending r.2.1)] else [])
    ++ (if r.1 ≠ [] then [.sendToolResponse r.1] else [])

/-- The `if server_content:` block (lines 233-282), in program order:
model-turn audio, input transcription, output transcription, turn
completion, then the interruption handling, which enqueues
`{"serverContent": {"interrupted": True}}`, only then invokes the
interrupt callback when one is registered, and finally enqueues the
supplementary `{"type": "interrupted"}`. -/
def processServerContent (hasCallback : Bool) (sc : ServerContent) : List Action :=
  (sc.modelTurnAudio.map .audioOut)
    ++ (match sc.inputTranscription with
        | some t => [.enqueue (.inputTranscription t true)]
        | none => [])
    ++ (match sc.outputTranscription with
        | some t => [.enqueue (.outputTranscription t true)]
        | none => [])
    ++ (if sc.turnComplete then [.enqueue .turnComplete] else [])
    ++ (if sc.interrupted then
          [.enqueue .interrupted]
            ++ (if hasCallback then [.invokeInterrupt] else [])
            ++ [.enqueue .interruptedType]
        else [])

/-- One backend message after the count bookkeeping (lines 230-352):
server content, session resumption update, go-away, then tool calls. -/
def processMessage (mapping : ToolMapping) (hasCallback : Bool)
    (msg : LiveServerMessage) : List Action :=
  (match msg.serverContent with
    | some sc => processServerContent hasCallback sc
    | none => [])
    ++ (match msg.sessionResumptionUpdate with
        | some (sid, tok, res) => [.enqueue (.resumptionUpdate sid tok res)]
        | none => [])
    ++ (match msg.goAway with
        | some tl => [.enqueue (.goAway tl)]
        | none => [])
    ++ (match msg.toolCall with
        | some fcs => processToolCall mapping fcs
        | none => [])

def MESSAGE_LIMIT_WARNING : ℕ := 900

/-- The `messageLimitWarning` events among the enqueued events of an
action trace. -/
def warningEvents (acts : List Action) : List Event :=
  (enqueuedEvents acts).filter (fun e =>
    match e with
    | .messageLimitWarning _ _ => true
    | _ => false)

/-- `message_count` and `limit_warning_sent` (lines 208-210). -/
structure RecvState where
  message_count : ℕ
  limit_warning_sent : Bool
deriving DecidableEq, Repr

/-- One iteration of the receive loop (lines 214-352): increment the
count, emit the one-shot limit warning at the first crossing of
`MESSAGE_LIMIT_WARNING`, then process the message. -/
def stepMessage (mapping : ToolMapping) (hasCallback : Bool)
    (st : RecvState) (msg : LiveServerMessage) : RecvState × List Action :=
  let count := st.message_count + 1
  if MESSAGE_LIMIT_WARNING ≤ count ∧ st.limit_warning_sent = false then
    (⟨count, true⟩,
      .enqueue (.messageLimitWarning count 1000) :: processMessage mapping hasCallback msg)
  else
    (⟨count, st.limit_warning_sent⟩, processMessage mapping hasCallback msg)

/-- The receive loop body over a finite stream of backend messages. -/
def runMessages (mapping : ToolMapping) (hasCallback : Bool) :
    RecvState → List LiveServerMessage → RecvState × List Action
  | st, [] => (st, [])
  | st, m :: rest =>
      let (st1, acts) := stepMessage mapping hasCallback st m
      let (st2, acts') := runMessages mapping hasCallback st1 rest
      (st2, acts ++ acts')

/-- How the receive loop terminates: the backend stream ends, an exception
is raised after some prefix of the enqueued events, or the task is
cancelled after some prefix. -/
inductive ExitMode
  | normal
  | raised (cut : ℕ) (msg : String)
  | cancelled (cut : ℕ)
deriving DecidableEq, Repr

/-- The sequence of items placed on `event_queue` by `receive_loop`
(lines 207-359): the events of the try body (truncated when an exception
or cancellation interrupts it), the `{"type": "error"}` event appended by
the `except` clause when an exception was raised, and the `None` sentinel
appended unconditionally by the `finally` clause. -/
def receive_loop_queue (mapping : ToolMapping) (hasCallback : Bool)
    (msgs : List LiveServerMessage) (exit : ExitMode) : List (Option Event) :=
  let events := enqueuedEvents (runMessages mapping hasCallback ⟨0, false⟩ msgs).2
  match exit with
  | .normal => events.map some ++ [none]
  | .raised cut msg => (events.take cut).map some ++ [some (.errorEvent msg), none]
  | .cancelled cut => (events.take cut).map some ++ [none]

end Gemini

/-! ## Raw-protocol adapter (`src/server/qwen_live.py`)

The receive loop (lines 194-294) parses each inbound message as JSON and
dispatches on the `type` string; messages carry exactly the fields the
dispatch reads. -/

namespace Qwen

inductive QwenMessage
  | audioDelta (delta : String)
  | inputTranscriptionCompleted (transcript : String)
  | outputTranscriptDelta (delta : String)
  | outputTranscriptDone (transcript : String)
  | responseDone
  | speechStarted
  | sessionCreated
  | sessionUpdated
  | errorMsg (msg : String)
  | otherType (t : String)
  | invalidJson
deriving DecidableEq, Repr

/-- Dispatch of one inbound message (lines 203-285).  Interruption
(`input_audio_buffer.speech_started`) invokes the registered callback
first and only then enqueues the `Interrupted` event. -/
def processMessage (hasCallback : Bool) : QwenMessage → List Action
  | .audioDelta delta => if delta ≠ "" then [.audioOut delta] else []
  | .inputTranscriptionCompleted t => [.enqueue (.inputTranscription t true)]
  | .outputTranscriptDelta d => [.enqueue (.outputTranscription d false)]
  | .outputTranscriptDone t => [.enqueue (.outputTranscription t true)]
  | .responseDone => [.enqueue .turnComplete]
  | .speechStarted =>
      (if hasCallback then [.invokeInterrupt] else []) ++ [.enqueue .interrupted]
  | .sessionCreated => []
  | .sessionUpdated => []
  | .errorMsg m => [.enqueue (.errorEvent m)]
  | .otherType _ => []
  | .invalidJson => []

/-- How the receive loop terminates: stream end, `ConnectionClosed`
(caught and logged, no error event), another exception (error event
appended), or cancellation. -/
inductive ExitMode
  | normal
  | connectionClosed
  | raised (cut : ℕ) (msg : String)
  | cancelled (cut : ℕ)
deriving DecidableEq, Repr

/-- Actions of the full message stream, in order. -/
def runMessages (hasCallback : Bool) (msgs : List QwenMessage) : List Action :=
  msgs.foldr (fun m acc => processMessage hasCallback m ++ acc) []

/-- The sequence of items placed on `event_queue` by `receive_loop`
(lines 194-294): as for the SDK adapter, with `ConnectionClosed` treated
like a normal end of stream, and the `None` sentinel appended
unconditionally by the `finally` clause. -/
def receive_loop_queue (hasCallback : Bool) (msgs : List QwenMessage)
    (exit : ExitMode) : List (Option Event) :=
  let events := enqueuedEvents (runMessages hasCallback msgs)
  match exit with
  | .normal => events.map some ++ [none]
  | .connectionClosed => events.map some ++ [none]
  | .raised cut msg => (events.take cut).map some ++ [some (.errorEvent msg), none]
  | .cancelled cut => (events.take cut).map some ++ [none]

end Qwen

/-! ## Session relay (`src/server/main.py`, `websocket_endpoint`) -/

namespace Relay

/-- The parsed shape of a text frame: a JSON dict
`{"type": "image", "data": b64}` (with the base64 length and the decode
result, `none` being a decode failure), a JSON dict containing
`realtime_input`, or anything else (including non-JSON text). -/
inductive TextShape
  | imagePayload (b64len : ℕ) (decoded : Option String)
  | realtimeInput (raw : String)
  | plainText (raw : String)
deriving DecidableEq, Repr

/-- One frame delivered by `websocket.receive()`: non-empty binary bytes
(with their length), non-empty text (with its length), or a message with
neither, which the loop ignores. -/
inductive ClientFrame
  | binaryFrame (size : ℕ) (data : String)
  | textFrame (size : ℕ) (shape : TextShape)
  | emptyFrame
deriving DecidableEq, Repr

/-- The three inbound queues of one session. -/
structure Queues where
  audio : List String
  video : List String
  text : List String
deriving DecidableEq, Repr

/-- One iteration of `receive_from_client` (lines 459-498), parametrised
by `MAX_MESSAGE_SIZE`.  Oversized binary and text frames are dropped
(`continue`); an image payload is dropped when its base64 data is empty,
longer than `MAX_MESSAGE_SIZE * 1.4` (rendered exactly as
`10 * b64len > 14 * maxSize`), or fails to decode; a `realtime_input`
dict falls through to the text queue, as does any other text. -/
def receive_step (maxSize : ℕ) (q : Queues) (f : ClientFrame) : Queues :=
  match f with
  | .emptyFrame => q
  | .binaryFrame size data =>
      if size > maxSize then q
      else { q with audio := q.audio ++ [data] }
  | .textFrame size shape =>
      if size > maxSize then q
      else
        match shape with
        | .imagePayload b64len decoded =>
            if b64len = 0 ∨ 10 * b64len > 14 * maxSize then q
            else
              match decoded with
              | some img => { q with video := q.video ++ [img] }
              | none => q
        | .realtimeInput raw => { q with text := q.text ++ [raw] }
        | .plainText raw => { q with text := q.text ++ [raw] }

/-- The reader task over a finite stream of frames; no frame ever
terminates the loop or raises. -/
def receive_from_client (maxSize : ℕ) (q : Queues) (frames : List ClientFrame) : Queues :=
  frames.foldl (receive_step maxSize) q

/-- A frame whose raw size exceeds the configured byte ceiling. -/
def oversized (maxSize : ℕ) : ClientFrame → Prop
  | .binaryFrame size _ => size > maxSize
  | .textFrame size _ => size > maxSize
  | .emptyFrame => False

instance (maxSize : ℕ) : (f : ClientFrame) → Decidable (oversized maxSize f)
  | .binaryFrame size _ => inferInstanceAs (Decidable (size > maxSize))
  | .textFrame size _ => inferInstanceAs (Decidable (size > maxSize))
  | .emptyFrame => inferInstanceAs (Decidable False)

/-- The timeout computation at `Active` entry (lines 519-526):
`SESSION_TIME_LIMIT` for an anonymous user, otherwise
`min(SESSION_TIME_LIMIT, int(remaining))`.  `none` models the uncaught
exception path of a non-numeric accumulator. -/
def websocket_effective_timeout (session_time_limit dailyLimit : ℤ) (now : ℤ)
    (today : String) (user_id : String) (st : Store StoreVal) :
    Option (ℤ × Store StoreVal) :=
  if user_id = "" then some (session_time_limit, st)
  else
    match get_user_remaining_today dailyLimit now today user_id st with
    | none => none
    | some (remaining, st1) => some (min session_time_limit remaining, st1)

/-- How `asyncio.wait_for(run_session(), timeout=effective_timeout)`
resolved. -/
inductive SessionOutcome
  | completed
  | timedOut
  | raised (exn : String)
deriving DecidableEq, Repr

/-- The `try/except/finally` around the session race (lines 530-553): the
`close()` calls issued in order as `(code, reason)` pairs — the explicit
`close(code=1000, reason="Session time limit reached")` on timeout, and
the unconditional close of the `finally` block (default code 1000, empty
reason, its own exceptions swallowed) — paired with the exception
propagated out of the endpoint, which is `none` on every path because
both `asyncio.TimeoutError` and `Exception` are caught. -/
def websocket_session_finish (outcome : SessionOutcome) :
    List (ℤ × String) × Option String :=
  match outcome with
  | .completed => ([(1000, "")], none)
  | .timedOut => ([(1000, "Session time limit reached"), (1000, "")], none)
  | .raised _ => ([(1000, "")], none)

end Relay

/-! ## Helper lemmas on association lists -/

theorem afind_eq_none_of_not_mem {β : Type} {m : List (String × β)} {t : String}
    (h : t ∉ akeys m) : afind m t = none := by
  induction m with
  | nil => rfl
  | cons pr rest ih =>
      obtain ⟨k, v⟩ := pr
      have h2 : ¬(t = k ∨ t ∈ akeys rest) := by simpa [akeys] using h
      have hkt : ¬ k = t := fun hh => h2 (Or.inl hh.symm)
      simp only [afind, if_neg hkt]
      exact ih (fun hm => h2 (Or.inr hm))

theorem akeys_filter_sublist {β : Type} (m : List (String × β)) (p : String × β → Bool) :
    (akeys (m.filter p)).Sublist (akeys m) :=
  List.Sublist.map Prod.fst (List.filter_sublist m)

theorem AWF_filter {β : Type} {m : List (String × β)} (hwf : AWF m)
    (p : String × β → Bool) : AWF (m.filter p) :=
  List.Nodup.sublist (akeys_filter_sublist m p) hwf

theorem AWF_aerase {β : Type} {m : List (String × β)} (hwf : AWF m) (t : String) :
    AWF (aerase m t) :=
  AWF_filter hwf _

theorem not_mem_akeys_aerase {β : Type} (m : List (String × β)) (t : String) :
    t ∉ akeys (aerase m t) := by
  intro h
  simp only [akeys, List.mem_map] at h
  obtain ⟨pr, hmem, hfst⟩ := h
  rw [aerase, List.mem_filter] at hmem
  exact absurd hfst (by simpa using hmem.2)

theorem AWF_ainsert {β : Type} {m : List (String × β)} (hwf : AWF m)
    (t : String) (v : β) : AWF (ainsert m t v) := by
  simp only [AWF, ainsert, akeys, List.map_cons, List.nodup_cons]
  exact ⟨not_mem_akeys_aerase m t, AWF_aerase hwf t⟩

theorem afind_filter_key {β : Type} (m : List (String × β)) (q : String → Bool)
    (t : String) :
    afind (m.filter (fun p => q p.1)) t = if q t then afind m t else none := by
  induction m with
  | nil => by_cases h : q t <;> simp [afind, h]
  | cons pr rest ih =>
      obtain ⟨k, v⟩ := pr
      by_cases hk : q k
      · rw [List.filter_cons_of_pos (by simpa using hk)]
        by_cases hkt : k = t
        · subst hkt; simp [afind, hk]
        · simp [afind, hkt, ih]
      · rw [List.filter_cons_of_neg (by simpa using hk)]
        by_cases hkt : k = t
        · subst hkt; rw [ih]; simp [afind, hk]
        · rw [ih]; simp [afind, hkt]

theorem afind_aerase {β : Type} (m : List (String × β)) (t t' : String) :
    afind (aerase m t) t' = if t' = t then none else afind m t' := by
  have h := afind_filter_key m (fun s => !decide (s = t)) t'
  by_cases htt : t' = t
  · subst htt; simpa [aerase] using h
  · simpa [aerase, htt] using h

theorem afind_ainsert {β : Type} (m : List (String × β)) (t t' : String) (v : β) :
    afind (ainsert m t v) t' = if t' = t then some v else afind m t' := by
  by_cases h : t' = t
  · subst h; simp [ainsert, afind]
  · have hne : ¬ t = t' := fun hh => h hh.symm
    simp [ainsert, afind, hne, afind_aerase, h]

theorem afind_filter {β : Type} {m : List (String × β)} (hwf : AWF m)
    (p : String × β → Bool) (t : String) :
    afind (m.filter p) t =
      match afind m t with
      | some v => if p (t, v) then some v else none
      | none => none := by
  induction m with
  | nil => rfl
  | cons pr rest ih =>
      obtain ⟨k, v⟩ := pr
      have hwf2 : k ∉ akeys rest ∧ AWF rest := by
        simpa [AWF, akeys, List.nodup_cons] using hwf
      by_cases hkt : k = t
      · subst hkt
        by_cases hp : p (k, v)
        · rw [List.filter_cons_of_pos hp]
          simp [afind, hp]
        · rw [List.filter_cons_of_neg (by simpa using hp)]
          have hnone : afind (rest.filter p) k = none :=
            afind_eq_none_of_not_mem fun hmem =>
              hwf2.1 (List.Sublist.subset (akeys_filter_sublist rest p) hmem)
          simp [afind, hnone, hp]
      · by_cases hp : p (k, v)
        · rw [List.filter_cons_of_pos hp]
          simp [afind, hkt, ih hwf2.2]
        · rw [List.filter_cons_of_neg (by simpa using hp)]
          simp [afind, hkt, ih hwf2.2]

theorem afind_cleanup_tokens {m : TokenMap} (hwf : AWF m) (now : ℤ)
    (token : String) :
    afind (cleanup_tokens now m) token =
      match afind m token with
      | some d => if now - d.timestamp > TOKEN_EXPIRY_SECONDS then none else some d
      | none => none := by
  unfold cleanup_tokens
  rw [afind_filter hwf]
  cases h : afind m token with
  | none => simp
  | some d => by_cases hc : now - d.timestamp > TOKEN_EXPIRY_SECONDS <;> simp [hc]

/-! ## C1 — token consumption and time-to-live -/

/-- C1 counterexample: a token minted at time 0 is still returned by a
consume that happens 40 seconds later — past the 30-second TTL — because
`consume_token` never reads the clock: its result is independent of the
consume time, and no `cleanup_tokens` has run since the mint (that only
happens inside `/api/auth`).  This refutes the claim that a consume call
returns the entry only if the TTL has not elapsed at consume time. -/
theorem consume_token_expired_counterexample :
    (consume_token "tok" (add_token 0 "tok" "usr" [])).1 = some ⟨0, "usr"⟩
      ∧ (40 : ℤ) - 0 > TOKEN_EXPIRY_SECONDS :=
  ⟨rfl, by decide⟩

/-- C1 amended: a consume call returns the associated entry if and only if
the token is present in the store — irrespective of elapsed time; the
first successful consume removes the entry and every subsequent consume of
the same token returns nothing; and an expired token stops being
consumable only once `cleanup_tokens` has run after its expiry (which
`main.py` does on each mint). -/
theorem consume_token_amended (m : TokenMap) (token : String) (now : ℤ)
    (hwf : AWF m) :
    (consume_token token m).1 = afind m token
      ∧ (consume_token token ((consume_token token m).2)).1 = none
      ∧ (∀ d, afind m token = some d →
          now - d.timestamp > TOKEN_EXPIRY_SECONDS →
          (consume_token token (cleanup_tokens now m)).1 = none) := by
  refine ⟨?_, ?_, ?_⟩
  · unfold consume_token
    cases h : afind m token <;> simp [h]
  · unfold consume_token
    cases h : afind m token with
    | none => simp [h]
    | some d => simp [h, afind_aerase]
  · intro d hfind hexp
    unfold consume_token
    rw [afind_cleanup_tokens hwf, hfind]
    simp [hexp]

/-- Witness for `consume_token_amended` at a concrete store. -/
theorem consume_token_amended_witness :
    AWF (add_token 0 "tok" "usr" ([] : TokenMap))
      ∧ ((consume_token "tok" (add_token 0 "tok" "usr" [])).1
            = afind (add_token 0 "tok" "usr" []) "tok"
          ∧ (consume_token "tok"
              ((consume_token "tok" (add_token 0 "tok" "usr" [])).2)).1 = none
          ∧ (∀ d, afind (add_token 0 "tok" "usr" ([] : TokenMap)) "tok" = some d →
              (40 : ℤ) - d.timestamp > TOKEN_EXPIRY_SECONDS →
              (consume_token "tok" (cleanup_tokens 40 (add_token 0 "tok" "usr" []))).1
                = none)) :=
  ⟨by decide, consume_token_amended (add_token 0 "tok" "usr" []) "tok" 40 (by decide)⟩

/-! ## Helper lemmas on the storage layer -/

theorem findEntry_aerase {α : Type} (s : Store α) (k k' : String) :
    Store.findEntry (aerase s k) k' = if k' = k then none else Store.findEntry s k' :=
  afind_aerase s k k'

theorem findEntry_ainsert {α : Type} (s : Store α) (k k' : String) (ve : α × Option ℤ) :
    Store.findEntry (ainsert s k ve) k' =
      if k' = k then some ve else Store.findEntry s k' :=
  afind_ainsert s k k' ve

theorem findEntry_cleanup {α : Type} {s : Store α} (hwf : AWF s) (now : ℤ)
    (k : String) :
    Store.findEntry (Store.cleanup now s) k =
      match Store.findEntry s k with
      | some (v, e) => if expiredAt e now then none else some (v, e)
      | none => none := by
  unfold Store.cleanup Store.findEntry
  rw [afind_filter hwf]
  cases h : afind s k with
  | none => simp
  | some ve =>
      obtain ⟨v, e⟩ := ve
      by_cases he : expiredAt e now <;> simp [he]

theorem AWF_cleanup {α : Type} {s : Store α} (hwf : AWF s) (now : ℤ) :
    AWF (Store.cleanup now s) :=
  AWF_filter hwf _

theorem readNum_cleanup {s : Store StoreVal} (hwf : AWF s) (now : ℤ) (k : String) :
    Store.readNum now k (Store.cleanup now s) = Store.readNum now k s := by
  unfold Store.readNum
  rw [findEntry_cleanup hwf]
  cases h : Store.findEntry s k with
  | none => rfl
  | some ve =>
      obtain ⟨v, e⟩ := ve
      by_cases he : expiredAt e now
      · cases v <;> simp [he]
      · cases v <;> simp [he]

theorem readNum_aerase {s : Store StoreVal} (now : ℤ) (k k' : String)
    (hk : k' ≠ k) :
    Store.readNum now k' (aerase s k) = Store.readNum now k' s := by
  unfold Store.readNum
  rw [findEntry_aerase, if_neg hk]

theorem numericAt_elim {s : Store StoreVal} {k : String} {v : StoreVal}
    {e : Option ℤ} (hnum : Store.numericAt s k)
    (h : Store.findEntry s k = some (v, e)) : ∃ x, v = StoreVal.num x := by
  unfold Store.numericAt at hnum
  rw [h] at hnum
  cases v with
  | jsonVal d => exact hnum.elim
  | num x => exact ⟨x, rfl⟩

theorem numericAt_cleanup {s : Store StoreVal} (hwf : AWF s) (now : ℤ)
    {k : String} (hnum : Store.numericAt s k) :
    Store.numericAt (Store.cleanup now s) k := by
  unfold Store.numericAt at hnum ⊢
  rw [findEntry_cleanup hwf]
  cases h : Store.findEntry s k with
  | none => trivial
  | some ve =>
      obtain ⟨v, e⟩ := ve
      rw [h] at hnum
      by_cases he : expiredAt e now
      · simp [he]
      · cases v with
        | jsonVal d => simp [he]; exact hnum
        | num x => simp [he]

theorem numericAt_aerase {s : Store StoreVal} (k k' : String) (hk : k' ≠ k)
    (hnum : Store.numericAt s k') :
    Store.numericAt (aerase s k) k' := by
  unfold Store.numericAt at hnum ⊢
  rw [findEntry_aerase, if_neg hk]
  exact hnum

theorem get_float_of_numericAt {s : Store StoreVal} (hwf : AWF s)
    {k : String} (hnum : Store.numericAt s k) (now : ℤ) :
    Store.get_float now k s = some (Store.readNum now k s, Store.cleanup now s) := by
  simp only [Store.get_float, Store.get]
  rw [findEntry_cleanup hwf]
  cases h : Store.findEntry s k with
  | none => simp [Store.readNum, h]
  | some ve =>
      obtain ⟨v, e⟩ := ve
      obtain ⟨x, rfl⟩ := numericAt_elim hnum h
      by_cases he : expiredAt e now <;>
        simp [Store.readNum, h, he, StoreVal.toFloat]

theorem incrby_of_numericAt {s : Store StoreVal} {k : String}
    (hnum : Store.numericAt s k) (now amount : ℤ) (ttl : Option ℤ) :
    Store.incrby now k amount ttl s
      = some (Store.readNum now k s + amount,
          ainsert s k (.num (Store.readNum now k s + amount), ttlExpiry now ttl)) := by
  unfold Store.incrby Store.readNum
  cases h : Store.findEntry s k with
  | none => simp
  | some ve =>
      obtain ⟨v, e⟩ := ve
      obtain ⟨x, rfl⟩ := numericAt_elim hnum h
      by_cases he : expiredAt e now <;> simp [he, StoreVal.toFloat]

theorem session_key_ne_usage_key (sid uid today : String) :
    session_key sid ≠ usage_key uid today := by
  intro h
  simp only [session_key, usage_key] at h
  have hd := congrArg String.data h
  simp only [String.data_append] at hd
  simp at hd

/-- Evaluation of `end_session` when a live session marker exists: the
marker is removed and the accumulator receives exactly the elapsed
duration. -/
theorem end_session_found (sid uid today : String) (t0 now : ℤ)
    (st : Store StoreVal) (sexp : Option ℤ)
    (hwf : AWF st)
    (hsess : Store.findEntry st (session_key sid)
      = some (.jsonVal ⟨uid, t0⟩, sexp))
    (hlive : expiredAt sexp now = false)
    (hnum : Store.numericAt st (usage_key uid today)) :
    end_session now today sid st
      = some (some (now - t0),
          ainsert (aerase (Store.cleanup now st) (session_key sid))
            (usage_key uid today)
            (.num (Store.readNum now (usage_key uid today) st + (now - t0)),
              ttlExpiry now (some USAGE_TTL))) := by
  have hne : usage_key uid today ≠ session_key sid :=
    fun h => session_key_ne_usage_key sid uid today h.symm
  have hfind1 : Store.findEntry (Store.cleanup now st) (session_key sid)
      = some (.jsonVal ⟨uid, t0⟩, sexp) := by
    rw [findEntry_cleanup hwf, hsess]
    simp [hlive]
  have hjson : Store.get_json now (session_key sid) st
      = (some ⟨uid, t0⟩, Store.cleanup now st) := by
    simp [Store.get_json, Store.get, hfind1, hlive]
  have hnum2 : Store.numericAt
      (aerase (Store.cleanup now st) (session_key sid)) (usage_key uid today) :=
    numericAt_aerase _ _ hne (numericAt_cleanup hwf now hnum)
  have hread2 : Store.readNum now (usage_key uid today)
      (aerase (Store.cleanup now st) (session_key sid))
      = Store.readNum now (usage_key uid today) st := by
    rw [readNum_aerase now (session_key sid) (usage_key uid today) hne,
      readNum_cleanup hwf]
  have hincr := incrby_of_numericAt hnum2 now (now - t0) (some USAGE_TTL)
  rw [hread2] at hincr
  simp only [end_session, hjson, Store.delete, hfind1]
  rw [hincr]

/-- Evaluation of `end_session` when no session marker exists: nothing is
returned and no key other than expired ones changes. -/
theorem end_session_absent {st : Store StoreVal} (hwf : AWF st)
    (now : ℤ) (today sid : String)
    (h : Store.findEntry st (session_key sid) = none) :
    end_session now today sid st = some (none, Store.cleanup now st) := by
  have h4 : Store.findEntry (Store.cleanup now st) (session_key sid) = none := by
    rw [findEntry_cleanup hwf, h]
  simp [end_session, Store.get_json, Store.get, h4]

/-! ## C4 — `end_session` idempotence -/

/-- C4: for a session id with a live start marker, the first `end` call
removes the marker, returns the elapsed duration `now - start`, and
increments the daily accumulator of the marker user by exactly that
duration; a second `end` call on the same id returns nothing and leaves
the accumulator unchanged (the only store change of the second call is
the lazy eviction of already-expired entries, which does not affect what
any live accumulator reads). -/
theorem end_session_idempotent (sid uid today : String) (t0 now now2 : ℤ)
    (st : Store StoreVal) (sexp : Option ℤ)
    (hwf : AWF st)
    (hsess : Store.findEntry st (session_key sid)
      = some (.jsonVal ⟨uid, t0⟩, sexp))
    (hlive : expiredAt sexp now = false)
    (hnum : Store.numericAt st (usage_key uid today)) :
    ∃ st3 : Store StoreVal,
      end_session now today sid st = some (some (now - t0), st3)
        ∧ Store.findEntry st3 (session_key sid) = none
        ∧ Store.readNum now (usage_key uid today) st3
            = Store.readNum now (usage_key uid today) st + (now - t0)
        ∧ end_session now2 today sid st3 = some (none, Store.cleanup now2 st3)
        ∧ Store.readNum now2 (usage_key uid today) (Store.cleanup now2 st3)
            = Store.readNum now2 (usage_key uid today) st3 := by
  have hne' : session_key sid ≠ usage_key uid today :=
    session_key_ne_usage_key sid uid today
  have hfresh : expiredAt (ttlExpiry now (some USAGE_TTL)) now = false := by
    simp [ttlExpiry, expiredAt, USAGE_TTL]
  refine ⟨_, end_session_found sid uid today t0 now st sexp hwf hsess hlive hnum,
    ?_, ?_, ?_, ?_⟩
  · rw [findEntry_ainsert, if_neg hne', findEntry_aerase, if_pos rfl]
  · simp [Store.readNum, findEntry_ainsert, hfresh]
  · exact end_session_absent
      (AWF_ainsert (AWF_aerase (AWF_cleanup hwf now) _) _ _) now2 today sid
      (by rw [findEntry_ainsert, if_neg hne', findEntry_aerase, if_pos rfl])
  · exact readNum_cleanup
      (AWF_ainsert (AWF_aerase (AWF_cleanup hwf now) _) _ _) now2 _

/-- Witness for `end_session_idempotent`: a session of user `u` started at
100 and ended at 130 yields duration 30; the second end at 200 returns
nothing. -/
theorem end_session_idempotent_witness :
    ∃ st3 : Store StoreVal,
      end_session 130 "d" "s1"
          [("session:s1", (StoreVal.jsonVal ⟨"u", 100⟩, some 7300))]
        = some (some ((130 : ℤ) - 100), st3)
        ∧ Store.findEntry st3 (session_key "s1") = none
        ∧ Store.readNum 130 (usage_key "u" "d") st3
            = Store.readNum 130 (usage_key "u" "d")
                [("session:s1", (StoreVal.jsonVal ⟨"u", 100⟩, some 7300))]
              + ((130 : ℤ) - 100)
        ∧ end_session 200 "d" "s1" st3 = some (none, Store.cleanup 200 st3)
        ∧ Store.readNum 200 (usage_key "u" "d") (Store.cleanup 200 st3)
            = Store.readNum 200 (usage_key "u" "d") st3 :=
  end_session_idempotent "s1" "u" "d" 100 130 200
    [("session:s1", (StoreVal.jsonVal ⟨"u", 100⟩, some 7300))] (some 7300)
    (by decide) (by decide) (by decide) (by decide)

/-! ## C10 — `MemoryStorage.get_and_delete` -/

/-- C10: after any call to `get_and_delete(key)` the key is absent from the
store; the call returns the stored value if and only if the entry was
present and unexpired at call time; and when the entry existed but had
expired, the call returns nothing while still removing the entry. -/
theorem get_and_delete_spec {α : Type} (now : ℤ) (k : String) (s : Store α) :
    Store.findEntry (Store.get_and_delete now k s).2 k = none
      ∧ (∀ v : α, (Store.get_and_delete now k s).1 = some v ↔
          ∃ e, Store.findEntry s k = some (v, e) ∧ expiredAt e now = false)
      ∧ (∀ v e, Store.findEntry s k = some (v, e) → expiredAt e now = true →
          (Store.get_and_delete now k s).1 = none) := by
  refine ⟨?_, ?_, ?_⟩
  · cases h : Store.findEntry s k with
    | none => simp [Store.get_and_delete, h]
    | some ve =>
        obtain ⟨v, e⟩ := ve
        by_cases he : expiredAt e now <;>
          simp [Store.get_and_delete, h, he, findEntry_aerase]
  · intro v
    cases h : Store.findEntry s k with
    | none => simp [Store.get_and_delete, h]
    | some ve =>
        obtain ⟨v0, e0⟩ := ve
        by_cases he : expiredAt e0 now
        · simp [Store.get_and_delete, h, he]
        · simp only [Store.get_and_delete, h, he]
          simp [he]
          constructor
          · intro hv
            exact ⟨e0, ⟨hv, rfl⟩, by simpa using he⟩
          · rintro ⟨e, ⟨hv, rfl⟩, _⟩
            exact hv
  · intro v e hfe hexp
    simp [Store.get_and_delete, hfe, hexp]

/-- Witness for `get_and_delete_spec` on a concrete store holding one
expired entry. -/
theorem get_and_delete_spec_witness :
    Store.findEntry
        (Store.get_and_delete 100 "k" [("k", ("val", some 50))]).2 "k" = none
      ∧ (∀ v : String,
          (Store.get_and_delete 100 "k" [("k", ("val", some 50))]).1 = some v ↔
          ∃ e, Store.findEntry [("k", ("val", some 50))] "k" = some (v, e)
            ∧ expiredAt e 100 = false)
      ∧ (∀ v e,
          Store.findEntry [("k", ("val", some 50))] "k" = some (v, e) →
          expiredAt e 100 = true →
          (Store.get_and_delete 100 "k" [("k", ("val", some 50))]).1 = none) :=
  get_and_delete_spec 100 "k" [("k", ("val", some 50))]

/-! ## C9 — `can_user_start_session` refuses sub-minute budgets -/

/-- C9: for a non-empty user id whose remaining daily quota is strictly
positive but below 60 seconds, `can_user_start_session` refuses the
session even though budget remains; for the empty (anonymous) user id it
always allows. -/
theorem can_start_refuses_under_minute (dailyLimit now : ℤ) (today uid : String)
    (st : Store StoreVal) (hwf : AWF st)
    (hnum : Store.numericAt st (usage_key uid today))
    (huid : uid ≠ "")
    (hpos : 0 < max 0 (dailyLimit - Store.readNum now (usage_key uid today) st))
    (hlt : max 0 (dailyLimit - Store.readNum now (usage_key uid today) st) < 60) :
    (∃ msg, can_user_start_session dailyLimit now today uid st
        = some ((false, msg), Store.cleanup now st))
      ∧ (∀ (dl now2 : ℤ) (td : String) (st2 : Store StoreVal),
          can_user_start_session dl now2 td "" st2
            = some ((true, "No user tracking (anonymous)"), st2)) := by
  constructor
  · unfold can_user_start_session get_user_remaining_today get_user_usage_today
    rw [if_neg huid, get_float_of_numericAt hwf hnum]
    dsimp only
    rw [if_neg (not_le.mpr hpos), if_pos hlt]
    exact ⟨_, rfl⟩
  · intro dl now2 td st2
    simp [can_user_start_session]

/-- Witness for `can_start_refuses_under_minute`: 3570 of 3600 daily
seconds used leaves 30 seconds, below the one-minute floor. -/
theorem can_start_refuses_under_minute_witness :
    (∃ msg, can_user_start_session 3600 0 "d" "u"
        [(usage_key "u" "d", (StoreVal.num 3570, none))]
        = some ((false, msg),
            Store.cleanup 0 [(usage_key "u" "d", (StoreVal.num 3570, none))]))
      ∧ (∀ (dl now2 : ℤ) (td : String) (st2 : Store StoreVal),
          can_user_start_session dl now2 td "" st2
            = some ((true, "No user tracking (anonymous)"), st2)) :=
  can_start_refuses_under_minute 3600 0 "d" "u"
    [(usage_key "u" "d", (StoreVal.num 3570, none))]
    (by decide) (by decide) (by decide) (by decide) (by decide)

/-! ## C3 — the wall-clock deadline and timeout handling -/

/-- C3: the session deadline computed at `Active` entry is
`min(configured limit, quota remaining)` for a known user — quota
remaining being `max(0, daily limit - accumulated usage)` — and exactly
the configured limit for the empty (anonymous) user id; expiry of the
deadline issues a close with the normal-closure code 1000 and propagates
no application error out of the endpoint. -/
theorem effective_deadline_spec (limit dailyLimit now : ℤ) (today uid : String)
    (st : Store StoreVal) (hwf : AWF st)
    (hnum : Store.numericAt st (usage_key uid today)) (huid : uid ≠ "") :
    Relay.websocket_effective_timeout limit dailyLimit now today uid st
      = some (min limit
            (max 0 (dailyLimit - Store.readNum now (usage_key uid today) st)),
          Store.cleanup now st)
      ∧ (∀ (l dl n : ℤ) (td : String) (st2 : Store StoreVal),
          Relay.websocket_effective_timeout l dl n td "" st2 = some (l, st2))
      ∧ Relay.websocket_session_finish .timedOut
          = ([(1000, "Session time limit reached"), (1000, "")], none)
      ∧ (∀ o, (Relay.websocket_session_finish o).2 = none) := by
  refine ⟨?_, ?_, rfl, ?_⟩
  · unfold Relay.websocket_effective_timeout get_user_remaining_today
      get_user_usage_today
    rw [if_neg huid, get_float_of_numericAt hwf hnum]
  · intro l dl n td st2
    simp [Relay.websocket_effective_timeout]
  · intro o
    cases o <;> rfl

/-- Witness for `effective_deadline_spec`: configured limit 600, 3400 of
3600 daily seconds used, so the deadline is `min 600 200 = 200`. -/
theorem effective_deadline_spec_witness :
    Relay.websocket_effective_timeout 600 3600 0 "d" "u"
        [(usage_key "u" "d", (StoreVal.num 3400, none))]
      = some (min 600
            (max 0 (3600 - Store.readNum 0 (usage_key "u" "d")
              [(usage_key "u" "d", (StoreVal.num 3400, none))])),
          Store.cleanup 0 [(usage_key "u" "d", (StoreVal.num 3400, none))])
      ∧ (∀ (l dl n : ℤ) (td : String) (st2 : Store StoreVal),
          Relay.websocket_effective_timeout l dl n td "" st2 = some (l, st2))
      ∧ Relay.websocket_session_finish .timedOut
          = ([(1000, "Session time limit reached"), (1000, "")], none)
      ∧ (∀ o, (Relay.websocket_session_finish o).2 = none) :=
  effective_deadline_spec 600 3600 0 "d" "u"
    [(usage_key "u" "d", (StoreVal.num 3400, none))]
    (by decide) (by decide) (by decide)

/-! ## Helper lemmas on event queues and traces -/

theorem consumer_loop_map_some (evs : List Event) :
    consumer_loop (evs.map some ++ [none]) = evs := by
  induction evs with
  | nil => rfl
  | cons e rest ih => simp [consumer_loop, ih]

theorem count_none_map_some (evs : List Event) :
    ((evs.map some ++ [none]).count (none : Option Event)) = 1 := by
  induction evs with
  | nil => rfl
  | cons e rest ih => simpa [List.count_cons] using ih

theorem cpi_of_not_mem {tr : List Action}
    (h : Action.enqueue Event.interrupted ∉ tr) :
    callback_precedes_interrupted tr := by
  intro i hi
  exact absurd (List.get?_mem hi) h

/-! ## C5 — exactly one terminal sentinel on every exit path -/

/-- C5: in both adapters, on every exit path of the receive loop — normal
end of the backend stream (or, for the raw adapter, `ConnectionClosed`),
an exception after any prefix of the events, or cancellation after any
prefix — the queue contents are some event list followed by exactly one
`None` sentinel, the sentinel is the last element, and the consumer loop
dequeues precisely the events before it and then terminates. -/
theorem terminal_sentinel_unique (mapping : Gemini.ToolMapping)
    (hasCallback : Bool) (msgs : List Gemini.LiveServerMessage)
    (exit : Gemini.ExitMode) (qmsgs : List Qwen.QwenMessage)
    (qexit : Qwen.ExitMode) :
    (∃ evs : List Event,
        Gemini.receive_loop_queue mapping hasCallback msgs exit
            = evs.map some ++ [none]
          ∧ consumer_loop (Gemini.receive_loop_queue mapping hasCallback msgs exit)
              = evs
          ∧ (Gemini.receive_loop_queue mapping hasCallback msgs exit).count none = 1
          ∧ (Gemini.receive_loop_queue mapping hasCallback msgs exit).getLast?
              = some none)
      ∧ (∃ evs : List Event,
          Qwen.receive_loop_queue hasCallback qmsgs qexit = evs.map some ++ [none]
            ∧ consumer_loop (Qwen.receive_loop_queue hasCallback qmsgs qexit) = evs
            ∧ (Qwen.receive_loop_queue hasCallback qmsgs qexit).count none = 1
            ∧ (Qwen.receive_loop_queue hasCallback qmsgs qexit).getLast?
                = some none) := by
  have key : ∀ (evs : List Event) (q : List (Option Event)),
      q = evs.map some ++ [none] →
      q = evs.map some ++ [none] ∧ consumer_loop q = evs
        ∧ q.count none = 1 ∧ q.getLast? = some none := by
    intro evs q hq
    subst hq
    exact ⟨rfl, consumer_loop_map_some evs, count_none_map_some evs, by simp⟩
  constructor
  · cases exit with
    | normal => exact ⟨_, key _ _ rfl⟩
    | raised cut msg =>
        refine ⟨(enqueuedEvents
            (Gemini.runMessages mapping hasCallback ⟨0, false⟩ msgs).2).take cut
            ++ [.errorEvent msg], key _ _ ?_⟩
        simp [Gemini.receive_loop_queue]
    | cancelled cut => exact ⟨_, key _ _ rfl⟩
  · cases qexit with
    | normal => exact ⟨_, key _ _ rfl⟩
    | connectionClosed => exact ⟨_, key _ _ rfl⟩
    | raised cut msg =>
        refine ⟨(enqueuedEvents (Qwen.runMessages hasCallback qmsgs)).take cut
            ++ [.errorEvent msg], key _ _ ?_⟩
        simp [Qwen.receive_loop_queue]
    | cancelled cut => exact ⟨_, key _ _ rfl⟩

/-! ## C2 — interrupt callback versus `Interrupted` event ordering -/

/-- C2 counterexample: in the SDK adapter, a backend message carrying an
interruption signal (with a registered interrupt callback and no other
content) produces the trace in which the
`{"serverContent": {"interrupted": True}}` event is enqueued at position 0,
strictly before the callback is invoked at position 1; so the callback is
not invoked strictly before the corresponding `Interrupted` event is
enqueued. -/
theorem interrupt_order_gemini_counterexample :
    Gemini.processMessage [] true
        ⟨some ⟨[], none, none, false, true⟩, none, none, none⟩
      = [.enqueue .interrupted, .invokeInterrupt, .enqueue .interruptedType]
      ∧ ¬ callback_precedes_interrupted
          (Gemini.processMessage [] true
            ⟨some ⟨[], none, none, false, true⟩, none, none, none⟩) := by
  refine ⟨rfl, ?_⟩
  intro hcp
  have h0 : (Gemini.processMessage [] true
      ⟨some ⟨[], none, none, false, true⟩, none, none, none⟩).get? 0
      = some (.enqueue .interrupted) := rfl
  obtain ⟨j, hj, _⟩ := hcp 0 h0
  exact Nat.not_lt_zero j hj

/-- C2 amended: in the raw-protocol (qwen) adapter the registered
interrupt callback is invoked strictly before the `Interrupted` event is
enqueued, for every inbound message; in the SDK (gemini) adapter the
interruption handling instead enqueues the
`serverContent.interrupted` event first, then invokes the callback, then
enqueues the supplementary `{"type": "interrupted"}` event — so there the
callback follows the first `Interrupted` event and precedes only the
supplementary one. -/
theorem interrupt_ordering_amended :
    (∀ m : Qwen.QwenMessage,
      callback_precedes_interrupted (Qwen.processMessage true m))
      ∧ (∀ (mapping : Gemini.ToolMapping) (msg : Gemini.LiveServerMessage)
          (sc : Gemini.ServerContent),
          msg.serverContent = some sc → sc.interrupted = true →
          ∃ pre post, Gemini.processMessage mapping true msg
            = pre ++ [.enqueue .interrupted, .invokeInterrupt,
                .enqueue .interruptedType] ++ post) := by
  constructor
  · intro m
    cases m with
    | audioDelta d =>
        apply cpi_of_not_mem
        by_cases hd : d = "" <;> simp [Qwen.processMessage, hd]
    | inputTranscriptionCompleted t => exact cpi_of_not_mem (by simp [Qwen.processMessage])
    | outputTranscriptDelta d => exact cpi_of_not_mem (by simp [Qwen.processMessage])
    | outputTranscriptDone t => exact cpi_of_not_mem (by simp [Qwen.processMessage])
    | responseDone => exact cpi_of_not_mem (by simp [Qwen.processMessage])
    | speechStarted =>
        intro i hi
        cases i with
        | zero => exact absurd hi (by decide)
        | succ i0 =>
            cases i0 with
            | zero => exact ⟨0, Nat.zero_lt_one, rfl⟩
            | succ n => exact absurd hi (by simp [Qwen.processMessage])
    | sessionCreated => exact cpi_of_not_mem (by simp [Qwen.processMessage])
    | sessionUpdated => exact cpi_of_not_mem (by simp [Qwen.processMessage])
    | errorMsg e => exact cpi_of_not_mem (by simp [Qwen.processMessage])
    | otherType t => exact cpi_of_not_mem (by simp [Qwen.processMessage])
    | invalidJson => exact cpi_of_not_mem (by simp [Qwen.processMessage])
  · intro mapping msg sc hsc hint
    refine ⟨(sc.modelTurnAudio.map .audioOut)
        ++ (match sc.inputTranscription with
            | some t => [.enqueue (.inputTranscription t true)]
            | none => [])
        ++ (match sc.outputTranscription with
            | some t => [.enqueue (.outputTranscription t true)]
            | none => [])
        ++ (if sc.turnComplete then [.enqueue .turnComplete] else []),
      (match msg.sessionResumptionUpdate with
          | some (sid, tok, res) => [.enqueue (.resumptionUpdate sid tok res)]
          | none => [])
        ++ (match msg.goAway with
            | some tl => [.enqueue (.goAway tl)]
            | none => [])
        ++ (match msg.toolCall with
            | some fcs => Gemini.processToolCall mapping fcs
            | none => []), ?_⟩
    simp [Gemini.processMessage, Gemini.processServerContent, hsc, hint]

/-! ## Helper lemmas for the message-limit warning -/

theorem warningEvents_append (a b : List Action) :
    Gemini.warningEvents (a ++ b)
      = Gemini.warningEvents a ++ Gemini.warningEvents b := by
  simp [Gemini.warningEvents, enqueuedEvents, List.filterMap_append,
    List.filter_append]

theorem warningEvents_audio (l : List String) :
    Gemini.warningEvents (l.map .audioOut) = [] := by
  induction l with
  | nil => rfl
  | cons a rest ih =>
      rw [List.map_cons,
        show Gemini.warningEvents (Action.audioOut a :: rest.map .audioOut)
          = Gemini.warningEvents (rest.map .audioOut) from rfl]
      exact ih

theorem warningEvents_processServerContent (cb : Bool)
    (sc : Gemini.ServerContent) :
    Gemini.warningEvents (Gemini.processServerContent cb sc) = [] := by
  obtain ⟨au, itr, otr, tc, int⟩ := sc
  unfold Gemini.processServerContent
  cases itr <;> cases otr <;> cases tc <;> cases int <;> cases cb <;>
    simp [warningEvents_append, warningEvents_audio, Gemini.warningEvents,
      enqueuedEvents]

theorem warningEvents_toolLoop (mapping : Gemini.ToolMapping)
    (fcs : List FunctionCall) :
    Gemini.warningEvents (Gemini.toolLoop mapping fcs).2.2 = [] := by
  induction fcs with
  | nil => rfl
  | cons fc rest ih =>
      cases h : afind mapping fc.name <;>
        simpa [Gemini.toolLoop, h, Gemini.warningEvents, enqueuedEvents] using ih

theorem warningEvents_pending (x : List FunctionCall) (acts : List Action) :
    Gemini.warningEvents (Action.enqueue (.toolCallPending x) :: acts)
      = Gemini.warningEvents acts := rfl

theorem warningEvents_send (x : List FunctionResponse) (acts : List Action) :
    Gemini.warningEvents (Action.sendToolResponse x :: acts)
      = Gemini.warningEvents acts := rfl

theorem warningEvents_empty : Gemini.warningEvents [] = [] := rfl

theorem warningEvents_warning_cons (c l : ℕ) (acts : List Action) :
    Gemini.warningEvents (Action.enqueue (.messageLimitWarning c l) :: acts)
      = .messageLimitWarning c l :: Gemini.warningEvents acts := rfl

theorem warningEvents_processToolCall (mapping : Gemini.ToolMapping)
    (fcs : List FunctionCall) :
    Gemini.warningEvents (Gemini.processToolCall mapping fcs) = [] := by
  unfold Gemini.processToolCall
  by_cases h1 : (Gemini.toolLoop mapping fcs).2.1 ≠ [] <;>
    by_cases h2 : (Gemini.toolLoop mapping fcs).1 ≠ [] <;>
      simp [h1, h2, warningEvents_append, warningEvents_toolLoop,
        warningEvents_pending, warningEvents_send, warningEvents_empty]

theorem warningEvents_processMessage (mapping : Gemini.ToolMapping) (cb : Bool)
    (msg : Gemini.LiveServerMessage) :
    Gemini.warningEvents (Gemini.processMessage mapping cb msg) = [] := by
  obtain ⟨msc, mtc, msru, mga⟩ := msg
  unfold Gemini.processMessage
  dsimp only
  have e1 : Gemini.warningEvents
      (match msc with
        | some sc => Gemini.processServerContent cb sc
        | none => []) = [] := by
    cases msc with
    | none => rfl
    | some sc => exact warningEvents_processServerContent cb sc
  have e2 : Gemini.warningEvents
      (match msru with
        | some (sid, tok, res) => [Action.enqueue (.resumptionUpdate sid tok res)]
        | none => []) = [] := by
    cases msru with
    | none => rfl
    | some p => obtain ⟨a, b, c⟩ := p; rfl
  have e3 : Gemini.warningEvents
      (match mga with
        | some tl => [Action.enqueue (.goAway tl)]
        | none => []) = [] := by
    cases mga with
    | none => rfl
    | some tl => rfl
  have e4 : Gemini.warningEvents
      (match mtc with
        | some fcs => Gemini.processToolCall mapping fcs
        | none => []) = [] := by
    cases mtc with
    | none => rfl
    | some fcs => exact warningEvents_processToolCall mapping fcs
  rw [warningEvents_append, warningEvents_append, warningEvents_append,
    e1, e2, e3, e4]
  rfl

theorem warningEvents_runMessages_sent (mapping : Gemini.ToolMapping) (cb : Bool)
    (c : ℕ) (msgs : List Gemini.LiveServerMessage) :
    Gemini.warningEvents (Gemini.runMessages mapping cb ⟨c, true⟩ msgs).2 = [] := by
  induction msgs generalizing c with
  | nil => rfl
  | cons m rest ih =>
      simp [Gemini.runMessages, Gemini.stepMessage, warningEvents_append,
        warningEvents_processMessage, ih]

theorem warningEvents_runMessages_crossing (mapping : Gemini.ToolMapping)
    (cb : Bool) (c : ℕ) (msgs : List Gemini.LiveServerMessage)
    (hc : c < 900) (hlen : 900 ≤ c + msgs.length) :
    Gemini.warningEvents (Gemini.runMessages mapping cb ⟨c, false⟩ msgs).2
      = [.messageLimitWarning 900 1000] := by
  induction msgs generalizing c with
  | nil => simp at hlen; omega
  | cons m rest ih =>
      by_cases h9 : 900 ≤ c + 1
      · have hc899 : c = 899 := by omega
        subst hc899
        have hstep : Gemini.stepMessage mapping cb ⟨899, false⟩ m
            = (⟨900, true⟩, Action.enqueue (.messageLimitWarning 900 1000)
                :: Gemini.processMessage mapping cb m) := by
          simp [Gemini.stepMessage, Gemini.MESSAGE_LIMIT_WARNING]
        simp [Gemini.runMessages, hstep, List.cons_append,
          warningEvents_warning_cons, warningEvents_append,
          warningEvents_processMessage, warningEvents_runMessages_sent]
      · have hlen' : 900 ≤ (c + 1) + rest.length := by
          simp [List.length_cons] at hlen
          omega
        simp [Gemini.runMessages, Gemini.stepMessage,
          Gemini.MESSAGE_LIMIT_WARNING, h9, warningEvents_append,
          warningEvents_processMessage]
        exact ih (c + 1) (by omega) hlen'

/-! ## C6 — the message-limit warning is one-shot with count 900 -/

/-- C6: over any backend stream of at least 900 messages, the events
enqueued by the receive loop contain exactly one `MessageLimitWarning`,
its payload is count 900 and limit 1000 (so it fired while processing the
900th message, the first crossing of the soft ceiling), and it is never
emitted again later in the same session. -/
theorem message_limit_warning_oneshot (mapping : Gemini.ToolMapping) (cb : Bool)
    (msgs : List Gemini.LiveServerMessage) (h : 900 ≤ msgs.length) :
    Gemini.warningEvents (Gemini.runMessages mapping cb ⟨0, false⟩ msgs).2
      = [.messageLimitWarning 900 1000] :=
  warningEvents_runMessages_crossing mapping cb 0 msgs (by omega) (by simpa using h)

/-- Witness for `message_limit_warning_oneshot` on a stream of 900 empty
backend messages. -/
theorem message_limit_warning_oneshot_witness :
    Gemini.warningEvents
        (Gemini.runMessages [] true ⟨0, false⟩
          (List.replicate 900 ⟨none, none, none, none⟩)).2
      = [.messageLimitWarning 900 1000] :=
  message_limit_warning_oneshot [] true
    (List.replicate 900 ⟨none, none, none, none⟩)
    (by simp only [List.length_replicate]; decide)

/-! ## Helper lemmas for tool-call dispatch -/

theorem toolLoop_clientCalls (mapping : Gemini.ToolMapping)
    (fcs : List FunctionCall) :
    (Gemini.toolLoop mapping fcs).2.1
      = fcs.filter (fun fc => (afind mapping fc.name).isNone) := by
  induction fcs with
  | nil => rfl
  | cons fc rest ih =>
      cases h : afind mapping fc.name <;>
        simp [Gemini.toolLoop, h, ih, List.filter_cons]

theorem invokeTool_mem_toolLoop_of_registered {mapping : Gemini.ToolMapping}
    {fcs : List FunctionCall} {fc : FunctionCall}
    {handler : String → Except String String}
    (hmem : fc ∈ fcs) (h : afind mapping fc.name = some handler) :
    Action.invokeTool fc.name fc.args ∈ (Gemini.toolLoop mapping fcs).2.2 := by
  induction fcs with
  | nil => cases hmem
  | cons fc0 rest ih =>
      rcases List.mem_cons.mp hmem with rfl | hmem'
      · simp [Gemini.toolLoop, h]
      · cases h0 : afind mapping fc0.name <;>
          simp [Gemini.toolLoop, h0, ih hmem']

theorem invokeTool_not_mem_toolLoop_of_unregistered {mapping : Gemini.ToolMapping}
    {n : String} (h : afind mapping n = none) (a : String)
    (fcs : List FunctionCall) :
    Action.invokeTool n a ∉ (Gemini.toolLoop mapping fcs).2.2 := by
  induction fcs with
  | nil => simp [Gemini.toolLoop]
  | cons fc0 rest ih =>
      cases h0 : afind mapping fc0.name with
      | none => simpa [Gemini.toolLoop, h0] using ih
      | some handler =>
          have htr : (Gemini.toolLoop mapping (fc0 :: rest)).2.2
              = Action.invokeTool fc0.name fc0.args
                :: Action.enqueue (.toolCallExecuted fc0.name fc0.args
                    (Gemini.toolResult handler fc0.args))
                :: (Gemini.toolLoop mapping rest).2.2 := by
            simp [Gemini.toolLoop, h0]
          rw [htr]
          intro hmem'
          rcases List.mem_cons.mp hmem' with heq | hmem''
          · injection heq with h1 h2
            subst h1
            rw [h] at h0
            exact Option.noConfusion h0
          · rcases List.mem_cons.mp hmem'' with heq2 | hmem3
            · exact Action.noConfusion heq2
            · exact ih hmem3

theorem response_mem_toolLoop_of_registered {mapping : Gemini.ToolMapping}
    {fcs : List FunctionCall} {fc : FunctionCall}
    {handler : String → Except String String}
    (hmem : fc ∈ fcs) (h : afind mapping fc.name = some handler) :
    (⟨fc.name, fc.id, Gemini.toolResult handler fc.args⟩ : FunctionResponse)
      ∈ (Gemini.toolLoop mapping fcs).1 := by
  induction fcs with
  | nil => cases hmem
  | cons fc0 rest ih =>
      rcases List.mem_cons.mp hmem with rfl | hmem'
      · simp [Gemini.toolLoop, h]
      · cases h0 : afind mapping fc0.name <;>
          simp [Gemini.toolLoop, h0, ih hmem']

theorem invokeTool_mem_processToolCall (mapping : Gemini.ToolMapping)
    (fcs : List FunctionCall) (n a : String) :
    (Action.invokeTool n a ∈ Gemini.processToolCall mapping fcs
      ↔ Action.invokeTool n a ∈ (Gemini.toolLoop mapping fcs).2.2) := by
  unfold Gemini.processToolCall
  by_cases h1 : (Gemini.toolLoop mapping fcs).2.1 ≠ [] <;>
    by_cases h2 : (Gemini.toolLoop mapping fcs).1 ≠ [] <;>
      simp [h1, h2]

theorem pending_mem_processToolCall (mapping : Gemini.ToolMapping)
    (fcs : List FunctionCall)
    (h : (Gemini.toolLoop mapping fcs).2.1 ≠ []) :
    Action.enqueue (.toolCallPending (Gemini.toolLoop mapping fcs).2.1)
      ∈ Gemini.processToolCall mapping fcs := by
  unfold Gemini.processToolCall
  by_cases h2 : (Gemini.toolLoop mapping fcs).1 ≠ [] <;>
    simp [h, h2]

theorem sendToolResponse_mem_processToolCall (mapping : Gemini.ToolMapping)
    (fcs : List FunctionCall)
    (h : (Gemini.toolLoop mapping fcs).1 ≠ []) :
    Action.sendToolResponse (Gemini.toolLoop mapping fcs).1
      ∈ Gemini.processToolCall mapping fcs := by
  unfold Gemini.processToolCall
  by_cases h1 : (Gemini.toolLoop mapping fcs).2.1 ≠ [] <;>
    simp [h, h1]

/-! ## C7 — registered tools run locally, unregistered ones are forwarded -/

/-- C7: for every tool call received from the backend, if its name is not
in the registered tool mapping it is collected into the
`client_tool_calls` forwarded to the client in a `ToolCallPending` event
and no local handler invocation for that name ever occurs; if its name is
registered, the handler is invoked locally with the call arguments, the
call result is included in the `send_tool_response` issued to the
backend, and the call is not forwarded to the client as pending. -/
theorem tool_call_dispatch (mapping : Gemini.ToolMapping)
    (fcs : List FunctionCall) (fc : FunctionCall) (hmem : fc ∈ fcs) :
    ((afind mapping fc.name).isNone →
        fc ∈ (Gemini.toolLoop mapping fcs).2.1
          ∧ Action.enqueue (.toolCallPending (Gemini.toolLoop mapping fcs).2.1)
              ∈ Gemini.processToolCall mapping fcs
          ∧ (∀ a, Action.invokeTool fc.name a ∉ Gemini.processToolCall mapping fcs))
      ∧ (∀ handler, afind mapping fc.name = some handler →
          Action.invokeTool fc.name fc.args ∈ Gemini.processToolCall mapping fcs
            ∧ fc ∉ (Gemini.toolLoop mapping fcs).2.1
            ∧ Action.sendToolResponse (Gemini.toolLoop mapping fcs).1
                ∈ Gemini.processToolCall mapping fcs
            ∧ (⟨fc.name, fc.id, Gemini.toolResult handler fc.args⟩ : FunctionResponse)
                ∈ (Gemini.toolLoop mapping fcs).1) := by
  constructor
  · intro hnone
    have hn : afind mapping fc.name = none := Option.isNone_iff_eq_none.mp hnone
    have hcc : fc ∈ (Gemini.toolLoop mapping fcs).2.1 := by
      rw [toolLoop_clientCalls]
      exact List.mem_filter.mpr ⟨hmem, by simp [hn]⟩
    refine ⟨hcc, pending_mem_processToolCall mapping fcs (List.ne_nil_of_mem hcc), ?_⟩
    intro a hin
    rw [invokeTool_mem_processToolCall] at hin
    exact invokeTool_not_mem_toolLoop_of_unregistered hn a fcs hin
  · intro handler h
    have hrmem := response_mem_toolLoop_of_registered hmem h
    refine ⟨?_, ?_, ?_, hrmem⟩
    · rw [invokeTool_mem_processToolCall]
      exact invokeTool_mem_toolLoop_of_registered hmem h
    · rw [toolLoop_clientCalls]
      intro hmem'
      have hpred := (List.mem_filter.mp hmem').2
      simp [h] at hpred
    · exact sendToolResponse_mem_processToolCall mapping fcs
        (List.ne_nil_of_mem hrmem)

/-- Witness for `tool_call_dispatch` with one registered tool `f` and a
call to the unregistered name `g`. -/
theorem tool_call_dispatch_witness :
    ((afind (("f", fun _ => Except.ok "r") :: ([] : Gemini.ToolMapping))
          (FunctionCall.mk "g" "b" "2").name).isNone →
        FunctionCall.mk "g" "b" "2"
            ∈ (Gemini.toolLoop (("f", fun _ => Except.ok "r") :: ([] : Gemini.ToolMapping))
                [⟨"f", "a", "1"⟩, ⟨"g", "b", "2"⟩]).2.1
          ∧ Action.enqueue (.toolCallPending
                (Gemini.toolLoop (("f", fun _ => Except.ok "r") :: ([] : Gemini.ToolMapping))
                  [⟨"f", "a", "1"⟩, ⟨"g", "b", "2"⟩]).2.1)
              ∈ Gemini.processToolCall (("f", fun _ => Except.ok "r") :: ([] : Gemini.ToolMapping))
                  [⟨"f", "a", "1"⟩, ⟨"g", "b", "2"⟩]
          ∧ (∀ a, Action.invokeTool (FunctionCall.mk "g" "b" "2").name a
              ∉ Gemini.processToolCall (("f", fun _ => Except.ok "r") :: ([] : Gemini.ToolMapping))
                  [⟨"f", "a", "1"⟩, ⟨"g", "b", "2"⟩]))
      ∧ (∀ handler, afind (("f", fun _ => Except.ok "r") :: ([] : Gemini.ToolMapping))
            (FunctionCall.mk "g" "b" "2").name = some handler →
          Action.invokeTool (FunctionCall.mk "g" "b" "2").name
              (FunctionCall.mk "g" "b" "2").args
              ∈ Gemini.processToolCall (("f", fun _ => Except.ok "r") :: ([] : Gemini.ToolMapping))
                  [⟨"f", "a", "1"⟩, ⟨"g", "b", "2"⟩]
            ∧ FunctionCall.mk "g" "b" "2"
                ∉ (Gemini.toolLoop (("f", fun _ => Except.ok "r") :: ([] : Gemini.ToolMapping))
                    [⟨"f", "a", "1"⟩, ⟨"g", "b", "2"⟩]).2.1
            ∧ Action.sendToolResponse
                (Gemini.toolLoop (("f", fun _ => Except.ok "r") :: ([] : Gemini.ToolMapping))
                  [⟨"f", "a", "1"⟩, ⟨"g", "b", "2"⟩]).1
                ∈ Gemini.processToolCall (("f", fun _ => Except.ok "r") :: ([] : Gemini.ToolMapping))
                    [⟨"f", "a", "1"⟩, ⟨"g", "b", "2"⟩]
            ∧ (⟨(FunctionCall.mk "g" "b" "2").name, (FunctionCall.mk "g" "b" "2").id,
                  Gemini.toolResult handler (FunctionCall.mk "g" "b" "2").args⟩
                  : FunctionResponse)
                ∈ (Gemini.toolLoop (("f", fun _ => Except.ok "r") :: ([] : Gemini.ToolMapping))
                    [⟨"f", "a", "1"⟩, ⟨"g", "b", "2"⟩]).1) :=
  tool_call_dispatch (("f", fun _ => Except.ok "r") :: ([] : Gemini.ToolMapping))
    [⟨"f", "a", "1"⟩, ⟨"g", "b", "2"⟩] ⟨"g", "b", "2"⟩ (by simp)

/-! ## C8 — oversized inbound frames are dropped, the connection continues -/

/-- C8: an inbound frame whose raw size exceeds the configured byte
ceiling is dropped without any effect on the three queues, and the reader
loop goes on to classify subsequent frames exactly as it would have
without the oversized frame: an in-size binary frame still lands on the
audio queue, an in-size image payload that decodes still lands on the
video queue, and any other in-size text still lands on the text queue. -/
theorem oversized_frame_dropped (maxSize : ℕ) (q : Relay.Queues)
    (f : Relay.ClientFrame) (rest : List Relay.ClientFrame)
    (hover : Relay.oversized maxSize f) :
    Relay.receive_step maxSize q f = q
      ∧ Relay.receive_from_client maxSize q (f :: rest)
          = Relay.receive_from_client maxSize q rest
      ∧ (∀ (size : ℕ) (data : String), size ≤ maxSize →
          Relay.receive_step maxSize q (.binaryFrame size data)
            = { q with audio := q.audio ++ [data] })
      ∧ (∀ (size : ℕ) (raw : String), size ≤ maxSize →
          Relay.receive_step maxSize q (.textFrame size (.plainText raw))
            = { q with text := q.text ++ [raw] })
      ∧ (∀ (size b64len : ℕ) (img : String), size ≤ maxSize → b64len ≠ 0 →
          10 * b64len ≤ 14 * maxSize →
          Relay.receive_step maxSize q
              (.textFrame size (.imagePayload b64len (some img)))
            = { q with video := q.video ++ [img] }) := by
  have h1 : Relay.receive_step maxSize q f = q := by
    cases f with
    | emptyFrame => exact hover.elim
    | binaryFrame size data =>
        simp only [Relay.receive_step]
        rw [if_pos (show size > maxSize from hover)]
    | textFrame size shape =>
        simp only [Relay.receive_step]
        rw [if_pos (show size > maxSize from hover)]
  refine ⟨h1, ?_, ?_, ?_, ?_⟩
  · simp [Relay.receive_from_client, h1]
  · intro size data hle
    simp [Relay.receive_step, Nat.not_lt.mpr hle]
  · intro size raw hle
    simp [Relay.receive_step, Nat.not_lt.mpr hle]
  · intro size b64len img hle hb0 hble
    simp [Relay.receive_step, Nat.not_lt.mpr hle, hb0, Nat.not_lt.mpr hble]

/-- Witness for `oversized_frame_dropped`: ceiling 10, an 11-byte binary
frame, followed by a small text frame. -/
theorem oversized_frame_dropped_witness :
    Relay.receive_step 10 ⟨[], [], []⟩ (.binaryFrame 11 "x") = ⟨[], [], []⟩
      ∧ Relay.receive_from_client 10 ⟨[], [], []⟩
            (Relay.ClientFrame.binaryFrame 11 "x"
              :: [Relay.ClientFrame.textFrame 2 (.plainText "hi")])
          = Relay.receive_from_client 10 ⟨[], [], []⟩
              [Relay.ClientFrame.textFrame 2 (.plainText "hi")]
      ∧ (∀ (size : ℕ) (data : String), size ≤ 10 →
          Relay.receive_step 10 ⟨[], [], []⟩ (.binaryFrame size data)
            = { Relay.Queues.mk [] [] [] with
                audio := Relay.Queues.audio ⟨[], [], []⟩ ++ [data] })
      ∧ (∀ (size : ℕ) (raw : String), size ≤ 10 →
          Relay.receive_step 10 ⟨[], [], []⟩ (.textFrame size (.plainText raw))
            = { Relay.Queues.mk [] [] [] with
                text := Relay.Queues.text ⟨[], [], []⟩ ++ [raw] })
      ∧ (∀ (size b64len : ℕ) (img : String), size ≤ 10 → b64len ≠ 0 →
          10 * b64len ≤ 14 * 10 →
          Relay.receive_step 10 ⟨[], [], []⟩
              (.textFrame size (.imagePayload b64len (some img)))
            = { Relay.Queues.mk [] [] [] with
                video := Relay.Queues.video ⟨[], [], []⟩ ++ [img] }) :=
  oversized_frame_dropped 10 ⟨[], [], []⟩ (.binaryFrame 11 "x")
    [Relay.ClientFrame.textFrame 2 (.plainText "hi")] (by decide)

end ConvTool
